import Mathlib

/-!
Shallow embedding of src/Class05_classic_CV/remove_similar_lines.py.

Python floats are modelled as real numbers.  Python raises exceptions in two
ways in this module: explicit ValueError raises, and float division by zero
(which raises ZeroDivisionError).  Fallible code is therefore embedded in
Except PyError.  The error messages of the source are Russian strings that
wrap the method name in single quote characters; the quote characters are
omitted here, everything else is kept verbatim.
-/

open Real

/-- A line segment (x1, y1, x2, y2), as in the Python 4-tuples. -/
abbrev Segment : Type := ℝ × ℝ × ℝ × ℝ

/-- A canonical line (A, B, C) with Ax + By + C = 0. -/
abbrev CanonicalLine : Type := ℝ × ℝ × ℝ

/-- Python exceptions raised by the module: ValueError with a message, and
ZeroDivisionError from float division by zero. -/
inductive PyError where
  | valueError (msg : String)
  | zeroDivisionError
deriving DecidableEq

/-- Python float division: x / y raises ZeroDivisionError when y = 0. -/
noncomputable def pyDiv (x y : ℝ) : Except PyError ℝ :=
  if y = 0 then .error .zeroDivisionError else .ok (x / y)

/-- Python builtin min over a nonempty sequence of floats (the empty case is
never reached in the source; Python would raise there). -/
noncomputable def pyMin : List ℝ → ℝ
  | [] => 0
  | x :: xs => xs.foldl min x

/-- Python builtin max(iterable, key=...) over a nonempty list: keeps the
current maximum and replaces it only on a strictly greater key, so the first
maximal element wins (the empty case is never reached in the source). -/
noncomputable def pyMax (key : Segment → ℝ) : List Segment → Segment
  | [] => (0, 0, 0, 0)
  | x :: xs => xs.foldl (fun cur y => if key cur < key y then y else cur) x

/-- line_to_canonical: A = y2-y1, B = x1-x2, C = x2*y1-x1*y2, normalized by
sqrt(A^2+B^2) when that norm is strictly positive. -/
noncomputable def line_to_canonical (line : Segment) : CanonicalLine :=
  let x1 := line.1; let y1 := line.2.1; let x2 := line.2.2.1; let y2 := line.2.2.2
  let A := y2 - y1
  let B := x1 - x2
  let C := x2 * y1 - x1 * y2
  let norm := Real.sqrt (A ^ 2 + B ^ 2)
  if 0 < norm then (A / norm, B / norm, C / norm) else (A, B, C)

/-- point_to_line_distance: abs(A*x + B*y + C) / sqrt(A^2 + B^2); the division
is Python float division, raising ZeroDivisionError on a degenerate line. -/
noncomputable def point_to_line_distance (point : ℝ × ℝ) (line : CanonicalLine) :
    Except PyError ℝ :=
  pyDiv |line.1 * point.1 + line.2.1 * point.2 + line.2.2|
    (Real.sqrt (line.1 ^ 2 + line.2.1 ^ 2))

/-- The value computed by point_to_line_distance when it does not raise. -/
noncomputable def ptl_val (point : ℝ × ℝ) (line : CanonicalLine) : ℝ :=
  |line.1 * point.1 + line.2.1 * point.2 + line.2.2| /
    Real.sqrt (line.1 ^ 2 + line.2.1 ^ 2)

/-- line_center: midpoint of the two endpoints. -/
noncomputable def line_center (line : Segment) : ℝ × ℝ :=
  ((line.1 + line.2.2.1) / 2, (line.2.1 + line.2.2.2) / 2)

/-- Python a % b for floats with b > 0: a - b * floor (a / b). -/
noncomputable def fmod (a b : ℝ) : ℝ := a - b * ⌊a / b⌋

/-- Standard math.atan2 semantics on the reals (signed zeros do not exist in
ℝ, so atan2 0 x with x < 0 returns π). -/
noncomputable def atan2 (y x : ℝ) : ℝ :=
  if 0 < x then Real.arctan (y / x)
  else if x < 0 then
    (if 0 ≤ y then Real.arctan (y / x) + π else Real.arctan (y / x) - π)
  else
    (if 0 < y then π / 2 else if y < 0 then -π / 2 else 0)

/-- line_angle: π/2 for a vertical line (B = 0), otherwise atan2(-A, B) % π. -/
noncomputable def line_angle (line : CanonicalLine) : ℝ :=
  if line.2.1 = 0 then π / 2
  else fmod (atan2 (-line.1) line.2.1) π

/-- lines_distance: the five-method dissimilarity of two canonical lines.
The result is an extended real because the parallel method returns
float(inf); every other method returns a coerced real. -/
noncomputable def lines_distance (line1_canonical line2_canonical : CanonicalLine)
    (line1_points line2_points : Option Segment := none)
    (method : String := "combined") : Except PyError EReal :=
  if method = "parallel" then
    -- dot_product = abs(A1*A2 + B1*B2); lines not parallel below 0.95
    if |line1_canonical.1 * line2_canonical.1 +
        line1_canonical.2.1 * line2_canonical.2.1| < 0.95 then .ok ⊤
    else .ok ↑|line2_canonical.2.2 - line1_canonical.2.2|
  else if method = "angle" then
    let angle1 := line_angle line1_canonical
    let angle2 := line_angle line2_canonical
    let angle_diff := min |angle1 - angle2| (π - |angle1 - angle2|)
    .ok ↑(angle_diff * 100)
  else if method = "center" then
    match line1_points, line2_points with
    | some line1_pts, some line2_pts =>
      let center1 := line_center line1_pts
      let center2 := line_center line2_pts
      .ok ↑(Real.sqrt ((center1.1 - center2.1) ^ 2 + (center1.2 - center2.2) ^ 2))
    | _, _ => .error (.valueError "Для метода center нужны исходные точки линий")
  else if method = "combined" then
    match line1_points, line2_points with
    | some line1_pts, some line2_pts =>
      let angle1 := line_angle line1_canonical
      let angle2 := line_angle line2_canonical
      let angle_diff := min |angle1 - angle2| (π - |angle1 - angle2|)
      let center1 := line_center line1_pts
      let center2 := line_center line2_pts
      let center_distance :=
        Real.sqrt ((center1.1 - center2.1) ^ 2 + (center1.2 - center2.2) ^ 2)
      (point_to_line_distance center1 line2_canonical).bind fun dist1_to_2 =>
      (point_to_line_distance center2 line1_canonical).bind fun dist2_to_1 =>
      .ok ↑(angle_diff * 50 + center_distance * 0.5 +
            ((dist1_to_2 + dist2_to_1) / 2) * 1.0)
    | _, _ => .error (.valueError "Для метода combined нужны исходные точки линий")
  else if method = "hausdorff" then
    match line1_points, line2_points with
    | some line1_pts, some line2_pts =>
      -- points1 / points2: the two endpoints of each segment
      ([(line1_pts.1, line1_pts.2.1), (line1_pts.2.2.1, line1_pts.2.2.2)].foldlM
          (fun max_min_dist p1 =>
            ([(line2_pts.1, line2_pts.2.1), (line2_pts.2.2.1, line2_pts.2.2.2)].mapM
                (fun _p2 => point_to_line_distance p1 line2_canonical)).bind fun ds =>
              .ok (max max_min_dist (pyMin ds)))
          (0 : ℝ)).bind fun after_first_loop =>
      ([(line2_pts.1, line2_pts.2.1), (line2_pts.2.2.1, line2_pts.2.2.2)].foldlM
          (fun max_min_dist p2 =>
            ([(line1_pts.1, line1_pts.2.1), (line1_pts.2.2.1, line1_pts.2.2.2)].mapM
                (fun _p1 => point_to_line_distance p2 line1_canonical)).bind fun ds =>
              .ok (max max_min_dist (pyMin ds)))
          after_first_loop).bind fun max_min_dist =>
      .ok ↑max_min_dist
    | _, _ => .error (.valueError "Для метода hausdorff нужны исходные точки линий")
  else .error (.valueError ("Неизвестный метод: " ++ method))

/-- calculate_line_distances: fill the upper triangle of an n x n zero matrix
(range (i+1) n is written as a filter of range n) and mirror each entry; the
two numpy cell writes are one function update covering both cells. -/
noncomputable def calculate_line_distances (lines : List Segment)
    (method : String := "combined") : Except PyError (ℕ → ℕ → EReal) :=
  let n := lines.length
  let canonical_lines := lines.map line_to_canonical
  (List.range n).foldlM (fun distance_matrix i =>
      ((List.range n).filter (fun j => decide (i < j))).foldlM (fun dm j =>
          (lines_distance (canonical_lines.getD i (0, 0, 0)) (canonical_lines.getD j (0, 0, 0))
              (if method ∈ ["center", "combined", "hausdorff"]
               then some (lines.getD i (0, 0, 0, 0)) else none)
              (if method ∈ ["center", "combined", "hausdorff"]
               then some (lines.getD j (0, 0, 0, 0)) else none)
              method).bind fun distance =>
            .ok (fun a b => if (a = i ∧ b = j) ∨ (a = j ∧ b = i) then distance else dm a b))
        distance_matrix)
    (fun _ _ => (0 : EReal))

/-- One step of the inner loop of find_similar_lines: add j to the group and
mark it visited when it is unvisited and within threshold of the founder i. -/
noncomputable def innerStep (M : ℕ → ℕ → EReal) (t : EReal) (i : ℕ)
    (gv : List ℕ × Finset ℕ) (j : ℕ) : List ℕ × Finset ℕ :=
  if j ∉ gv.2 ∧ M i j ≤ t then (gv.1 ++ [j], insert j gv.2) else gv

/-- One step of the outer loop of find_similar_lines: skip a visited index,
otherwise open a group [i], mark i visited, sweep all j, append the group. -/
noncomputable def outerStep (M : ℕ → ℕ → EReal) (t : EReal) (n : ℕ)
    (st : Finset ℕ × List (List ℕ)) (i : ℕ) : Finset ℕ × List (List ℕ) :=
  if i ∈ st.1 then st
  else
    let gv := (List.range n).foldl (innerStep M t i) ([i], insert i st.1)
    (gv.2, st.2 ++ [gv.1])

/-- find_similar_lines: greedy founder-seeded grouping over the distance
matrix; the state is the visited set together with the groups so far. -/
noncomputable def find_similar_lines (lines : List Segment)
    (threshold : ℝ := 10) (method : String := "combined") :
    Except PyError (List (List ℕ)) :=
  (calculate_line_distances lines method).bind fun distance_matrix =>
    .ok (((List.range lines.length).foldl
          (outerStep distance_matrix ↑threshold lines.length) (∅, [])).2)

/-- Euclidean endpoint-to-endpoint length (the local line_length of
remove_similar_lines). -/
noncomputable def line_length (line : Segment) : ℝ :=
  Real.sqrt ((line.2.2.1 - line.1) ^ 2 + (line.2.2.2 - line.2.1) ^ 2)

/-- remove_similar_lines: one representative per group, the stable longest
member when keep_longest is set, otherwise the first member. -/
noncomputable def remove_similar_lines (lines : List Segment)
    (threshold : ℝ := 10) (method : String := "combined")
    (keep_longest : Bool := true) : Except PyError (List Segment) :=
  (find_similar_lines lines threshold method).bind fun groups =>
    .ok (groups.map (fun group =>
      if keep_longest then
        pyMax line_length (group.map (fun i => lines.getD i (0, 0, 0, 0)))
      else
        lines.getD (group.getD 0 0) (0, 0, 0, 0)))

/-- Union of the members of a list of groups, as a finite set. -/
def unionAll : List (List ℕ) → Finset ℕ
  | [] => ∅
  | g :: gs => g.toFinset ∪ unionAll gs

/-- Invariant of the grouping state: the visited set is the union of the
groups built so far, all indices are below n, each group has no duplicates,
and each group is its founder plus exactly the indices unvisited at founding
time that are within threshold of the founder. -/
def GInv (M : ℕ → ℕ → EReal) (t : EReal) (n : ℕ)
    (st : Finset ℕ × List (List ℕ)) : Prop :=
  st.1 = unionAll st.2 ∧
  (∀ x ∈ st.1, x < n) ∧
  (∀ g ∈ st.2, g.Nodup) ∧
  ∀ k g, st.2[k]? = some g → ∃ i, g.head? = some i ∧ i < n ∧
    i ∉ unionAll (st.2.take k) ∧
    ∀ j, j ∈ g ↔ (j = i ∨ (j < n ∧ j ∉ unionAll (st.2.take k) ∧ j ≠ i ∧ M i j ≤ t))

/-- Invariant of the distance matrix: symmetric, zero diagonal, nonnegative,
and finite for every method except parallel. -/
def MatInv (method : String) (M : ℕ → ℕ → EReal) : Prop :=
  (∀ a b, M a b = M b a) ∧ (∀ a, M a a = 0) ∧ (∀ a b, (0 : EReal) ≤ M a b) ∧
  (method ≠ "parallel" → ∀ a b, M a b ≠ ⊤)

/-- A degenerate canonical line, produced from a zero-length segment. -/
def degenerateLine (c : CanonicalLine) : Prop := c.1 = 0 ∧ c.2.1 = 0

/-- The max-of-four-endpoint-distances form of the hausdorff method, written
from the specification text. -/
noncomputable def hausdorff_max_of_four (line1_canonical line2_canonical : CanonicalLine)
    (line1_pts line2_pts : Segment) : Except PyError EReal :=
  (point_to_line_distance (line1_pts.1, line1_pts.2.1) line2_canonical).bind fun d1 =>
  (point_to_line_distance (line1_pts.2.2.1, line1_pts.2.2.2) line2_canonical).bind fun d2 =>
  (point_to_line_distance (line2_pts.1, line2_pts.2.1) line1_canonical).bind fun d3 =>
  (point_to_line_distance (line2_pts.2.2.1, line2_pts.2.2.2) line1_canonical).bind fun d4 =>
  .ok ↑(max (max d1 d2) (max d3 d4))

/-- Endpoint-order reversal of a segment. -/
def revSeg (line : Segment) : Segment := (line.2.2.1, line.2.2.2, line.1, line.2.1)

section ExceptLemmas

variable {ε α β : Type _}

lemma Except_ok_bind (a : α) (f : α → Except ε β) : (Except.ok a).bind f = f a := rfl

lemma Except_error_bind (e : ε) (f : α → Except ε β) :
    (Except.error e : Except ε α).bind f = .error e := rfl

lemma Except_bind_ok (a : α) (f : α → Except ε β) :
    ((Except.ok a : Except ε α) >>= f) = f a := rfl

lemma Except_bind_error (e : ε) (f : α → Except ε β) :
    ((Except.error e : Except ε α) >>= f) = .error e := rfl

lemma Except_pure_eq (a : α) : (pure a : Except ε α) = .ok a := rfl

end ExceptLemmas

lemma sqrt_norm_eq_zero_iff (c : CanonicalLine) :
    Real.sqrt (c.1 ^ 2 + c.2.1 ^ 2) = 0 ↔ degenerateLine c := by
  rw [Real.sqrt_eq_zero (by positivity), degenerateLine]
  constructor
  · intro h
    constructor <;> nlinarith [sq_nonneg c.1, sq_nonneg c.2.1]
  · rintro ⟨h1, h2⟩
    rw [h1, h2]; ring

lemma point_to_line_distance_eq (p : ℝ × ℝ) (c : CanonicalLine) :
    point_to_line_distance p c =
      if Real.sqrt (c.1 ^ 2 + c.2.1 ^ 2) = 0 then .error .zeroDivisionError
      else .ok (ptl_val p c) := rfl

lemma ptl_val_nonneg (p : ℝ × ℝ) (c : CanonicalLine) : 0 ≤ ptl_val p c :=
  div_nonneg (abs_nonneg _) (Real.sqrt_nonneg _)

lemma lines_distance_parallel_eq (c1 c2 : CanonicalLine) (p1 p2 : Option Segment) :
    lines_distance c1 c2 p1 p2 "parallel" =
      if |c1.1 * c2.1 + c1.2.1 * c2.2.1| < 0.95 then .ok ⊤
      else .ok ↑|c2.2.2 - c1.2.2| := by
  unfold lines_distance
  rw [if_pos rfl]

lemma lines_distance_angle_eq (c1 c2 : CanonicalLine) (p1 p2 : Option Segment) :
    lines_distance c1 c2 p1 p2 "angle" =
      .ok ↑(min |line_angle c1 - line_angle c2| (π - |line_angle c1 - line_angle c2|) * 100) := by
  unfold lines_distance
  rw [if_neg (by decide), if_pos rfl]

lemma lines_distance_center_eq (c1 c2 : CanonicalLine) (s1 s2 : Segment) :
    lines_distance c1 c2 (some s1) (some s2) "center" =
      .ok ↑(Real.sqrt (((line_center s1).1 - (line_center s2).1) ^ 2 +
            ((line_center s1).2 - (line_center s2).2) ^ 2)) := by
  unfold lines_distance
  rw [if_neg (by decide), if_neg (by decide), if_pos rfl]

lemma lines_distance_combined_closed (c1 c2 : CanonicalLine) (s1 s2 : Segment) :
    lines_distance c1 c2 (some s1) (some s2) "combined" =
      if Real.sqrt (c2.1 ^ 2 + c2.2.1 ^ 2) = 0 then .error .zeroDivisionError
      else if Real.sqrt (c1.1 ^ 2 + c1.2.1 ^ 2) = 0 then .error .zeroDivisionError
      else .ok ↑(min |line_angle c1 - line_angle c2| (π - |line_angle c1 - line_angle c2|) * 50 +
            Real.sqrt (((line_center s1).1 - (line_center s2).1) ^ 2 +
              ((line_center s1).2 - (line_center s2).2) ^ 2) * 0.5 +
            ((ptl_val (line_center s1) c2 + ptl_val (line_center s2) c1) / 2) * 1.0) := by
  have hunf : lines_distance c1 c2 (some s1) (some s2) "combined" =
      (point_to_line_distance (line_center s1) c2).bind fun dist1_to_2 =>
      (point_to_line_distance (line_center s2) c1).bind fun dist2_to_1 =>
      .ok ↑(min |line_angle c1 - line_angle c2| (π - |line_angle c1 - line_angle c2|) * 50 +
            Real.sqrt (((line_center s1).1 - (line_center s2).1) ^ 2 +
              ((line_center s1).2 - (line_center s2).2) ^ 2) * 0.5 +
            ((dist1_to_2 + dist2_to_1) / 2) * 1.0) := by
    unfold lines_distance
    rw [if_neg (by decide), if_neg (by decide), if_neg (by decide), if_pos rfl]
  rw [hunf, point_to_line_distance_eq, point_to_line_distance_eq]
  by_cases h2 : Real.sqrt (c2.1 ^ 2 + c2.2.1 ^ 2) = 0 <;>
    by_cases h1 : Real.sqrt (c1.1 ^ 2 + c1.2.1 ^ 2) = 0 <;>
    simp [h1, h2, Except_ok_bind, Except_error_bind]

lemma mapM_loop_pair {ε α β : Type _} (f : α → Except ε β) (a b : α) :
    List.mapM.loop f [a, b] [] = (f a).bind fun x => (f b).bind fun y => .ok [x, y] := by
  cases h1 : f a <;> cases h2 : f b <;>
    simp [List.mapM.loop, h1, h2, Except_bind_ok, Except_bind_error,
      Except_ok_bind, Except_error_bind, Except_pure_eq]

lemma mapM_pair {ε α β : Type _} (f : α → Except ε β) (a b : α) :
    List.mapM f [a, b] = (f a).bind fun x => (f b).bind fun y => .ok [x, y] :=
  mapM_loop_pair f a b

lemma lines_distance_hausdorff_closed (c1 c2 : CanonicalLine) (s1 s2 : Segment) :
    lines_distance c1 c2 (some s1) (some s2) "hausdorff" =
      if Real.sqrt (c2.1 ^ 2 + c2.2.1 ^ 2) = 0 then .error .zeroDivisionError
      else if Real.sqrt (c1.1 ^ 2 + c1.2.1 ^ 2) = 0 then .error .zeroDivisionError
      else .ok ↑(max (max (max (max 0 (ptl_val (s1.1, s1.2.1) c2))
            (ptl_val (s1.2.2.1, s1.2.2.2) c2)) (ptl_val (s2.1, s2.2.1) c1))
            (ptl_val (s2.2.2.1, s2.2.2.2) c1)) := by
  have hunf : lines_distance c1 c2 (some s1) (some s2) "hausdorff" =
      ([(s1.1, s1.2.1), (s1.2.2.1, s1.2.2.2)].foldlM
          (fun max_min_dist p1 =>
            ([(s2.1, s2.2.1), (s2.2.2.1, s2.2.2.2)].mapM
                (fun _p2 => point_to_line_distance p1 c2)).bind fun ds =>
              .ok (max max_min_dist (pyMin ds)))
          (0 : ℝ)).bind fun after_first_loop =>
      ([(s2.1, s2.2.1), (s2.2.2.1, s2.2.2.2)].foldlM
          (fun max_min_dist p2 =>
            ([(s1.1, s1.2.1), (s1.2.2.1, s1.2.2.2)].mapM
                (fun _p1 => point_to_line_distance p2 c1)).bind fun ds =>
              .ok (max max_min_dist (pyMin ds)))
          after_first_loop).bind fun max_min_dist =>
      (.ok ↑max_min_dist : Except PyError EReal) := by
    unfold lines_distance
    rw [if_neg (by decide), if_neg (by decide), if_neg (by decide), if_neg (by decide),
      if_pos rfl]
  rw [hunf]
  by_cases h2 : Real.sqrt (c2.1 ^ 2 + c2.2.1 ^ 2) = 0 <;>
    by_cases h1 : Real.sqrt (c1.1 ^ 2 + c1.2.1 ^ 2) = 0 <;>
    simp [point_to_line_distance_eq, h1, h2, List.foldlM_cons, List.foldlM_nil,
      mapM_pair, mapM_loop_pair, Except_bind_ok, Except_bind_error, Except_pure_eq,
      Except_ok_bind, Except_error_bind, pyMin, min_self]

lemma fmod_eq_mul_fract (a b : ℝ) (hb : b ≠ 0) : fmod a b = b * Int.fract (a / b) := by
  rw [fmod, Int.fract, mul_sub, mul_div_cancel₀ a hb]

lemma fmod_nonneg_of_pos (a b : ℝ) (hb : 0 < b) : 0 ≤ fmod a b := by
  rw [fmod_eq_mul_fract a b (ne_of_gt hb)]
  exact mul_nonneg hb.le (Int.fract_nonneg _)

lemma fmod_lt_of_pos (a b : ℝ) (hb : 0 < b) : fmod a b < b := by
  rw [fmod_eq_mul_fract a b (ne_of_gt hb)]
  calc b * Int.fract (a / b) < b * 1 :=
        (mul_lt_mul_left hb).mpr (Int.fract_lt_one _)
    _ = b := mul_one b

lemma fmod_add_self (a b : ℝ) (hb : b ≠ 0) : fmod (a + b) b = fmod a b := by
  unfold fmod
  have h : (a + b) / b = a / b + (1 : ℤ) := by push_cast; field_simp
  rw [h, Int.floor_add_int]
  push_cast
  ring

lemma fmod_sub_self (a b : ℝ) (hb : b ≠ 0) : fmod (a - b) b = fmod a b := by
  unfold fmod
  have h : (a - b) / b = a / b - (1 : ℤ) := by push_cast; field_simp
  rw [h, Int.floor_sub_int]
  push_cast
  ring

lemma line_angle_mem (l : CanonicalLine) : 0 ≤ line_angle l ∧ line_angle l < π := by
  unfold line_angle
  by_cases h : l.2.1 = 0
  · rw [if_pos h]
    constructor <;> linarith [Real.pi_pos]
  · rw [if_neg h]
    exact ⟨fmod_nonneg_of_pos _ _ Real.pi_pos, fmod_lt_of_pos _ _ Real.pi_pos⟩

lemma angle_diff_nonneg (l1 l2 : CanonicalLine) :
    0 ≤ min |line_angle l1 - line_angle l2| (π - |line_angle l1 - line_angle l2|) := by
  obtain ⟨h1l, h1r⟩ := line_angle_mem l1
  obtain ⟨h2l, h2r⟩ := line_angle_mem l2
  have h : |line_angle l1 - line_angle l2| < π :=
    abs_sub_lt_iff.mpr ⟨by linarith, by linarith⟩
  exact le_min (abs_nonneg _) (by linarith)

lemma atan2_fmod_neg_neg (y x : ℝ) (hx : x ≠ 0) :
    fmod (atan2 (-y) (-x)) π = fmod (atan2 y x) π := by
  have hpi := Real.pi_ne_zero
  rcases lt_or_gt_of_ne hx with h | h
  · -- x < 0, so -x > 0
    unfold atan2
    rw [if_pos (by linarith : (0:ℝ) < -x), if_neg (by linarith : ¬ (0:ℝ) < x),
      if_pos h, neg_div_neg_eq]
    by_cases hy : 0 ≤ y
    · rw [if_pos hy, fmod_add_self _ _ hpi]
    · rw [if_neg hy, fmod_sub_self _ _ hpi]
  · -- x > 0, so -x < 0
    unfold atan2
    rw [if_pos h, if_neg (by linarith : ¬ (0:ℝ) < -x), if_pos (by linarith : -x < 0),
      neg_div_neg_eq]
    by_cases hy : 0 ≤ -y
    · rw [if_pos hy, fmod_add_self _ _ hpi]
    · rw [if_neg hy, fmod_sub_self _ _ hpi]

lemma line_angle_neg (A B C : ℝ) : line_angle (-A, -B, -C) = line_angle (A, B, C) := by
  unfold line_angle
  by_cases hB : B = 0
  · rw [hB]
    norm_num
  · rw [if_neg (by simpa using hB), if_neg hB]
    have := atan2_fmod_neg_neg (-A) B hB
    simpa using this

lemma lines_distance_center_missing (c1 c2 : CanonicalLine) (p1 p2 : Option Segment)
    (hp : p1 = none ∨ p2 = none) :
    lines_distance c1 c2 p1 p2 "center" =
      .error (.valueError "Для метода center нужны исходные точки линий") := by
  unfold lines_distance
  rw [if_neg (by decide), if_neg (by decide), if_pos rfl]
  rcases hp with rfl | rfl
  · cases p2 <;> rfl
  · cases p1 <;> rfl

lemma lines_distance_combined_missing (c1 c2 : CanonicalLine) (p1 p2 : Option Segment)
    (hp : p1 = none ∨ p2 = none) :
    lines_distance c1 c2 p1 p2 "combined" =
      .error (.valueError "Для метода combined нужны исходные точки линий") := by
  unfold lines_distance
  rw [if_neg (by decide), if_neg (by decide), if_neg (by decide), if_pos rfl]
  rcases hp with rfl | rfl
  · cases p2 <;> rfl
  · cases p1 <;> rfl

lemma lines_distance_hausdorff_missing (c1 c2 : CanonicalLine) (p1 p2 : Option Segment)
    (hp : p1 = none ∨ p2 = none) :
    lines_distance c1 c2 p1 p2 "hausdorff" =
      .error (.valueError "Для метода hausdorff нужны исходные точки линий") := by
  unfold lines_distance
  rw [if_neg (by decide), if_neg (by decide), if_neg (by decide), if_neg (by decide),
    if_pos rfl]
  rcases hp with rfl | rfl
  · cases p2 <;> rfl
  · cases p1 <;> rfl

lemma lines_distance_unknown (c1 c2 : CanonicalLine) (p1 p2 : Option Segment)
    (m : String) (h1 : m ≠ "parallel") (h2 : m ≠ "angle") (h3 : m ≠ "center")
    (h4 : m ≠ "combined") (h5 : m ≠ "hausdorff") :
    lines_distance c1 c2 p1 p2 m = .error (.valueError ("Неизвестный метод: " ++ m)) := by
  unfold lines_distance
  rw [if_neg h1, if_neg h2, if_neg h3, if_neg h4, if_neg h5]

lemma lines_distance_ok_nonneg (c1 c2 : CanonicalLine) (p1 p2 : Option Segment)
    (method : String) (v : EReal)
    (h : lines_distance c1 c2 p1 p2 method = .ok v) : 0 ≤ v := by
  by_cases hm1 : method = "parallel"
  · subst hm1
    rw [lines_distance_parallel_eq] at h
    split_ifs at h
    · cases h; exact le_top
    · cases h; exact EReal.coe_nonneg.mpr (abs_nonneg _)
  by_cases hm2 : method = "angle"
  · subst hm2
    rw [lines_distance_angle_eq] at h
    cases h
    exact EReal.coe_nonneg.mpr (mul_nonneg (angle_diff_nonneg c1 c2) (by norm_num))
  by_cases hm3 : method = "center"
  · subst hm3
    match p1, p2 with
    | none, p2 => rw [lines_distance_center_missing c1 c2 none p2 (Or.inl rfl)] at h; cases h
    | some s1, none => rw [lines_distance_center_missing c1 c2 (some s1) none (Or.inr rfl)] at h; cases h
    | some s1, some s2 =>
        rw [lines_distance_center_eq] at h
        cases h
        exact EReal.coe_nonneg.mpr (Real.sqrt_nonneg _)
  by_cases hm4 : method = "combined"
  · subst hm4
    match p1, p2 with
    | none, p2 => rw [lines_distance_combined_missing c1 c2 none p2 (Or.inl rfl)] at h; cases h
    | some s1, none => rw [lines_distance_combined_missing c1 c2 (some s1) none (Or.inr rfl)] at h; cases h
    | some s1, some s2 =>
        rw [lines_distance_combined_closed] at h
        split_ifs at h <;> cases h
        case _ =>
          refine EReal.coe_nonneg.mpr ?_
          have ha := angle_diff_nonneg c1 c2
          have hb := Real.sqrt_nonneg (((line_center s1).1 - (line_center s2).1) ^ 2 +
            ((line_center s1).2 - (line_center s2).2) ^ 2)
          have hc := ptl_val_nonneg (line_center s1) c2
          have hd := ptl_val_nonneg (line_center s2) c1
          linarith
  by_cases hm5 : method = "hausdorff"
  · subst hm5
    match p1, p2 with
    | none, p2 => rw [lines_distance_hausdorff_missing c1 c2 none p2 (Or.inl rfl)] at h; cases h
    | some s1, none => rw [lines_distance_hausdorff_missing c1 c2 (some s1) none (Or.inr rfl)] at h; cases h
    | some s1, some s2 =>
        rw [lines_distance_hausdorff_closed] at h
        split_ifs at h <;> cases h
        case _ =>
          refine EReal.coe_nonneg.mpr ?_
          exact le_trans (le_trans (le_trans (le_max_left 0 _) (le_max_left _ _))
            (le_max_left _ _)) (le_max_left _ _)
  rw [lines_distance_unknown c1 c2 p1 p2 method hm1 hm2 hm3 hm4 hm5] at h
  cases h

lemma lines_distance_ok_ne_top (c1 c2 : CanonicalLine) (p1 p2 : Option Segment)
    (method : String) (v : EReal) (hm : method ≠ "parallel")
    (h : lines_distance c1 c2 p1 p2 method = .ok v) : v ≠ ⊤ := by
  by_cases hm2 : method = "angle"
  · subst hm2
    rw [lines_distance_angle_eq] at h
    cases h; exact EReal.coe_ne_top _
  by_cases hm3 : method = "center"
  · subst hm3
    match p1, p2 with
    | none, p2 => rw [lines_distance_center_missing c1 c2 none p2 (Or.inl rfl)] at h; cases h
    | some s1, none => rw [lines_distance_center_missing c1 c2 (some s1) none (Or.inr rfl)] at h; cases h
    | some s1, some s2 =>
        rw [lines_distance_center_eq] at h
        cases h; exact EReal.coe_ne_top _
  by_cases hm4 : method = "combined"
  · subst hm4
    match p1, p2 with
    | none, p2 => rw [lines_distance_combined_missing c1 c2 none p2 (Or.inl rfl)] at h; cases h
    | some s1, none => rw [lines_distance_combined_missing c1 c2 (some s1) none (Or.inr rfl)] at h; cases h
    | some s1, some s2 =>
        rw [lines_distance_combined_closed] at h
        split_ifs at h <;> cases h
        case _ => exact EReal.coe_ne_top _
  by_cases hm5 : method = "hausdorff"
  · subst hm5
    match p1, p2 with
    | none, p2 => rw [lines_distance_hausdorff_missing c1 c2 none p2 (Or.inl rfl)] at h; cases h
    | some s1, none => rw [lines_distance_hausdorff_missing c1 c2 (some s1) none (Or.inr rfl)] at h; cases h
    | some s1, some s2 =>
        rw [lines_distance_hausdorff_closed] at h
        split_ifs at h <;> cases h
        case _ => exact EReal.coe_ne_top _
  rw [lines_distance_unknown c1 c2 p1 p2 method hm hm2 hm3 hm4 hm5] at h
  cases h

lemma foldlM_except_induction {α β ε : Type _} (P : β → Prop) :
    ∀ (L : List α) (f : β → α → Except ε β) (b0 bf : β),
      L.foldlM f b0 = .ok bf → P b0 →
      (∀ b a b2, a ∈ L → f b a = .ok b2 → P b → P b2) → P bf := by
  intro L
  induction L with
  | nil =>
      intro f b0 bf hfold hP _
      simp only [List.foldlM_nil, Except_pure_eq] at hfold
      cases hfold
      exact hP
  | cons a L ih =>
      intro f b0 bf hfold hP hstep
      rw [List.foldlM_cons] at hfold
      cases hfa : f b0 a with
      | error e => rw [hfa, Except_bind_error] at hfold; cases hfold
      | ok b1 =>
          rw [hfa, Except_bind_ok] at hfold
          exact ih f b1 bf hfold (hstep b0 a b1 (List.mem_cons_self a L) hfa hP)
            (fun b x b2 hx => hstep b x b2 (List.mem_cons_of_mem a hx))

lemma matInv_update (method : String) (M : ℕ → ℕ → EReal) (i j : ℕ) (d : EReal)
    (hij : i ≠ j) (hM : MatInv method M) (hd : 0 ≤ d)
    (hdt : method ≠ "parallel" → d ≠ ⊤) :
    MatInv method (fun a b => if (a = i ∧ b = j) ∨ (a = j ∧ b = i) then d else M a b) := by
  obtain ⟨hsym, hdiag, hnn, hnt⟩ := hM
  refine ⟨fun a b => ?_, fun a => ?_, fun a b => ?_, fun hp a b => ?_⟩ <;> dsimp only
  · by_cases hab : (a = i ∧ b = j) ∨ (a = j ∧ b = i)
    · rw [if_pos hab, if_pos (by tauto)]
    · rw [if_neg hab, if_neg (by tauto)]
      exact hsym a b
  · rw [if_neg (by rintro (⟨rfl, rfl⟩ | ⟨rfl, rfl⟩) <;> exact hij rfl)]
    exact hdiag a
  · by_cases hab : (a = i ∧ b = j) ∨ (a = j ∧ b = i)
    · rw [if_pos hab]; exact hd
    · rw [if_neg hab]; exact hnn a b
  · by_cases hab : (a = i ∧ b = j) ∨ (a = j ∧ b = i)
    · rw [if_pos hab]; exact hdt hp
    · rw [if_neg hab]; exact hnt hp a b

lemma calculate_line_distances_matInv (lines : List Segment) (method : String)
    (M : ℕ → ℕ → EReal) (h : calculate_line_distances lines method = .ok M) :
    MatInv method M := by
  unfold calculate_line_distances at h
  refine foldlM_except_induction (MatInv method) _ _ _ _ h ?_ ?_
  · exact ⟨fun _ _ => rfl, fun _ => rfl, fun _ _ => le_refl _, fun _ _ _ => by simp⟩
  · intro b i b2 hi hinner hb
    refine foldlM_except_induction (MatInv method) _ _ _ _ hinner hb ?_
    intro dm j dm2 hj hstep hdm
    have hij : i < j := by
      have := List.mem_filter.mp hj
      simpa using this.2
    cases hld : lines_distance ((lines.map line_to_canonical).getD i (0, 0, 0))
        ((lines.map line_to_canonical).getD j (0, 0, 0))
        (if method ∈ ["center", "combined", "hausdorff"]
         then some (lines.getD i (0, 0, 0, 0)) else none)
        (if method ∈ ["center", "combined", "hausdorff"]
         then some (lines.getD j (0, 0, 0, 0)) else none)
        method with
    | error e => rw [hld, Except_error_bind] at hstep; cases hstep
    | ok d =>
        rw [hld, Except_ok_bind] at hstep
        cases hstep
        exact matInv_update method dm i j d (Nat.ne_of_lt hij) hdm
          (lines_distance_ok_nonneg _ _ _ _ _ _ hld)
          (fun hp => lines_distance_ok_ne_top _ _ _ _ _ _ hp hld)

lemma norm_sq_pos (x1 y1 x2 y2 : ℝ) (h : (x1, y1) ≠ (x2, y2)) :
    0 < (y2 - y1) ^ 2 + (x1 - x2) ^ 2 := by
  have h2 : ¬(x1 = x2 ∧ y1 = y2) := by simpa [Prod.ext_iff] using h
  rcases not_and_or.mp h2 with hx | hy
  · have : x1 - x2 ≠ 0 := sub_ne_zero_of_ne hx
    have := pow_pos (abs_pos.mpr this) 2
    nlinarith [sq_nonneg (y2 - y1), sq_abs (x1 - x2)]
  · have : y2 - y1 ≠ 0 := sub_ne_zero_of_ne (Ne.symm hy)
    have := pow_pos (abs_pos.mpr this) 2
    nlinarith [sq_nonneg (x1 - x2), sq_abs (y2 - y1)]

lemma line_to_canonical_pos_case (x1 y1 x2 y2 : ℝ)
    (h : 0 < Real.sqrt ((y2 - y1) ^ 2 + (x1 - x2) ^ 2)) :
    line_to_canonical (x1, y1, x2, y2) =
      ((y2 - y1) / Real.sqrt ((y2 - y1) ^ 2 + (x1 - x2) ^ 2),
       (x1 - x2) / Real.sqrt ((y2 - y1) ^ 2 + (x1 - x2) ^ 2),
       (x2 * y1 - x1 * y2) / Real.sqrt ((y2 - y1) ^ 2 + (x1 - x2) ^ 2)) := by
  simp only [line_to_canonical]
  rw [if_pos h]

lemma line_to_canonical_unit (x1 y1 x2 y2 : ℝ) (h : (x1, y1) ≠ (x2, y2)) :
    (line_to_canonical (x1, y1, x2, y2)).1 ^ 2 + (line_to_canonical (x1, y1, x2, y2)).2.1 ^ 2 = 1 := by
  have hS := norm_sq_pos x1 y1 x2 y2 h
  have hpos : 0 < Real.sqrt ((y2 - y1) ^ 2 + (x1 - x2) ^ 2) := Real.sqrt_pos.mpr hS
  rw [line_to_canonical_pos_case x1 y1 x2 y2 hpos]
  have hsq : Real.sqrt ((y2 - y1) ^ 2 + (x1 - x2) ^ 2) ^ 2 =
      (y2 - y1) ^ 2 + (x1 - x2) ^ 2 := Real.sq_sqrt hS.le
  rw [div_pow, div_pow, div_add_div_same, hsq, div_self (ne_of_gt hS)]

lemma line_to_canonical_degenerate (x1 y1 x2 y2 : ℝ) (h : (x1, y1) = (x2, y2)) :
    line_to_canonical (x1, y1, x2, y2) = (0, 0, 0) := by
  rw [Prod.ext_iff] at h
  obtain ⟨hx, hy⟩ := h
  dsimp only at hx hy
  subst hx; subst hy
  simp only [line_to_canonical]
  norm_num

lemma line_to_canonical_revSeg (s : Segment) :
    line_to_canonical (revSeg s) =
      (-(line_to_canonical s).1, -(line_to_canonical s).2.1, -(line_to_canonical s).2.2) := by
  obtain ⟨x1, y1, x2, y2⟩ := s
  simp only [line_to_canonical, revSeg]
  have hnorm : (y1 - y2) ^ 2 + (x2 - x1) ^ 2 = (y2 - y1) ^ 2 + (x1 - x2) ^ 2 := by ring
  rw [hnorm]
  split_ifs with h
  · refine Prod.ext ?_ (Prod.ext ?_ ?_) <;> simp only [neg_div] <;> rw [← neg_div] <;>
      congr 1 <;> ring
  · refine Prod.ext ?_ (Prod.ext ?_ ?_) <;> simp only [] <;> ring

lemma pyMax_cons (key : Segment → ℝ) (x : Segment) (xs : List Segment) :
    pyMax key (x :: xs) = xs.foldl (fun cur y => if key cur < key y then y else cur) x := rfl

lemma pyMax_spec (key : Segment → ℝ) :
    ∀ (xs : List Segment) (x : Segment),
      ∃ l1 l2, x :: xs = l1 ++ pyMax key (x :: xs) :: l2 ∧
        (∀ y ∈ l1, key y < key (pyMax key (x :: xs))) ∧
        (∀ y ∈ l2, key y ≤ key (pyMax key (x :: xs))) := by
  intro xs
  induction xs with
  | nil =>
      intro x
      exact ⟨[], [], rfl, by simp, by simp⟩
  | cons y ys ih =>
      intro x
      have hstep : pyMax key (x :: y :: ys) = pyMax key ((if key x < key y then y else x) :: ys) := by
        rw [pyMax_cons, pyMax_cons, List.foldl_cons]
      by_cases hxy : key x < key y
      · rw [if_pos hxy] at hstep
        obtain ⟨l1, l2, hdec, hl1, hl2⟩ := ih y
        rw [← hstep] at hdec hl1 hl2
        cases l1 with
        | nil =>
            simp only [List.nil_append] at hdec
            have hm : pyMax key (x :: y :: ys) = y := (List.cons.injEq ..).mp hdec |>.1.symm
            refine ⟨[x], l2, ?_, ?_, hl2⟩
            · simpa using hdec
            · intro z hz
              rcases List.mem_singleton.mp hz with rfl
              rw [hm]; exact hxy
        | cons a t =>
            rw [List.cons_append] at hdec
            obtain ⟨rfl, hys⟩ := (List.cons.injEq ..).mp hdec
            refine ⟨x :: y :: t, l2, ?_, ?_, hl2⟩
            · conv_lhs => rw [hys]
              rfl
            · intro z hz
              rcases List.mem_cons.mp hz with hzx | hz2
              · rw [hzx]; exact lt_trans hxy (hl1 y (List.mem_cons_self y t))
              · exact hl1 z hz2
      · rw [if_neg hxy] at hstep
        obtain ⟨l1, l2, hdec, hl1, hl2⟩ := ih x
        rw [← hstep] at hdec hl1 hl2
        cases l1 with
        | nil =>
            simp only [List.nil_append] at hdec
            obtain ⟨hm, hl2eq⟩ := (List.cons.injEq ..).mp hdec
            refine ⟨[], y :: l2, ?_, by simp, ?_⟩
            · simp only [List.nil_append]
              rw [← hm, hl2eq]
            · intro z hz
              rcases List.mem_cons.mp hz with rfl | hz2
              · rw [← hm]; exact not_lt.mp hxy
              · exact hl2 z hz2
        | cons a t =>
            rw [List.cons_append] at hdec
            obtain ⟨rfl, hys⟩ := (List.cons.injEq ..).mp hdec
            refine ⟨x :: y :: t, l2, ?_, ?_, hl2⟩
            · conv_lhs => rw [hys]
              rfl
            · intro z hz
              rcases List.mem_cons.mp hz with hzx | hz2
              · rw [hzx]; exact hl1 x (List.mem_cons_self x t)
              · rcases List.mem_cons.mp hz2 with hzy | hz3
                · rw [hzy]; exact lt_of_le_of_lt (not_lt.mp hxy) (hl1 x (List.mem_cons_self x t))
                · exact hl1 z (List.mem_cons_of_mem x hz3)

lemma mem_unionAll (x : ℕ) : ∀ (gs : List (List ℕ)), x ∈ unionAll gs ↔ ∃ g ∈ gs, x ∈ g := by
  intro gs
  induction gs with
  | nil => simp [unionAll]
  | cons g gs ih => simp [unionAll, ih]

lemma unionAll_append_singleton (gs : List (List ℕ)) (g : List ℕ) :
    unionAll (gs ++ [g]) = unionAll gs ∪ g.toFinset := by
  induction gs with
  | nil => simp [unionAll]
  | cons h t ih => simp [unionAll, ih, Finset.union_assoc]

lemma innerFold_spec (M : ℕ → ℕ → EReal) (t : EReal) (i : ℕ) :
    ∀ (L : List ℕ), L.Nodup → ∀ (g : List ℕ) (v : Finset ℕ),
      L.foldl (innerStep M t i) (g, v) =
        (g ++ L.filter (fun j => decide (j ∉ v ∧ M i j ≤ t)),
         v ∪ (L.filter (fun j => decide (j ∉ v ∧ M i j ≤ t))).toFinset) := by
  intro L
  induction L with
  | nil => intro _ g v; simp
  | cons j L ih =>
      intro hnd g v
      obtain ⟨hjL, hndL⟩ := List.nodup_cons.mp hnd
      rw [List.foldl_cons]
      have hcong : ∀ x ∈ L,
          (decide (x ∉ insert j v ∧ M i x ≤ t)) = (decide (x ∉ v ∧ M i x ≤ t)) := by
        intro x hx
        have hxj : x ≠ j := fun hcontr => hjL (hcontr ▸ hx)
        simp [Finset.mem_insert, hxj]
      by_cases hc : j ∉ v ∧ M i j ≤ t
      · have hstep : innerStep M t i (g, v) j = (g ++ [j], insert j v) := by
          unfold innerStep
          rw [if_pos hc]
        rw [hstep, ih hndL, List.filter_congr hcong,
          List.filter_cons_of_pos (by simpa using hc)]
        simp [List.append_assoc, Finset.insert_union, Finset.union_insert]
      · have hstep : innerStep M t i (g, v) j = (g, v) := by
          unfold innerStep
          rw [if_neg hc]
        rw [hstep, ih hndL, List.filter_cons_of_neg (by simpa using hc)]

lemma outerStep_preserves (M : ℕ → ℕ → EReal) (t : EReal) (n : ℕ)
    (st : Finset ℕ × List (List ℕ)) (i : ℕ) (hi : i < n) (hInv : GInv M t n st) :
    GInv M t n (outerStep M t n st i) ∧ st.1 ⊆ (outerStep M t n st i).1 ∧
      i ∈ (outerStep M t n st i).1 := by
  obtain ⟨hv, hlt, hnd, hchar⟩ := hInv
  by_cases hiv : i ∈ st.1
  · have hstep : outerStep M t n st i = st := by
      unfold outerStep
      rw [if_pos hiv]
    rw [hstep]
    exact ⟨⟨hv, hlt, hnd, hchar⟩, subset_rfl, hiv⟩
  · have hfold := innerFold_spec M t i (List.range n) (List.nodup_range n) [i] (insert i st.1)
    have hstep : outerStep M t n st i =
        (insert i st.1 ∪ ((List.range n).filter
            (fun j => decide (j ∉ insert i st.1 ∧ M i j ≤ t))).toFinset,
         st.2 ++ [i :: (List.range n).filter
            (fun j => decide (j ∉ insert i st.1 ∧ M i j ≤ t))]) := by
      unfold outerStep
      rw [if_neg hiv]
      rw [hfold]
      rfl
    rw [hstep]
    clear hfold
    set F := (List.range n).filter (fun j => decide (j ∉ insert i st.1 ∧ M i j ≤ t)) with hF
    have hmemF : ∀ j, j ∈ F ↔ (j < n ∧ j ∉ st.1 ∧ j ≠ i ∧ M i j ≤ t) := by
      intro j
      rw [hF, List.mem_filter]
      simp only [List.mem_range, decide_eq_true_eq, Finset.mem_insert, not_or]
      tauto
    refine ⟨⟨?_, ?_, ?_, ?_⟩, ?_, ?_⟩ <;> dsimp only
    · -- visited = union of groups
      rw [unionAll_append_singleton, ← hv, List.toFinset_cons,
        Finset.insert_union, Finset.union_insert]
    · -- all indices below n
      intro x hx
      rcases Finset.mem_union.mp hx with hx1 | hx2
      · rcases Finset.mem_insert.mp hx1 with rfl | hx3
        · exact hi
        · exact hlt x hx3
      · exact ((hmemF x).mp (List.mem_toFinset.mp hx2)).1
    · -- groups have no duplicates
      intro g hg
      rcases List.mem_append.mp hg with hg1 | hg2
      · exact hnd g hg1
      · rcases List.mem_singleton.mp hg2 with rfl
        refine List.nodup_cons.mpr ⟨?_, List.Nodup.filter _ (List.nodup_range n)⟩
        intro hiF
        exact ((hmemF i).mp hiF).2.2.1 rfl
    · -- characterization of each group
      intro k g hk
      by_cases hklen : k < st.2.length
      · rw [List.getElem?_append_left hklen] at hk
        obtain ⟨i0, hhead, hi0, hnotin, hiff⟩ := hchar k g hk
        refine ⟨i0, hhead, hi0, ?_, ?_⟩
        · rwa [List.take_append_of_le_length (le_of_lt hklen)]
        · rw [List.take_append_of_le_length (le_of_lt hklen)]
          exact hiff
      · by_cases hkeq : k = st.2.length
        · subst hkeq
          rw [List.getElem?_concat_length] at hk
          cases hk
          refine ⟨i, rfl, hi, ?_, ?_⟩
          · rw [List.take_left]
            rw [← hv]
            exact hiv
          · rw [List.take_left, ← hv]
            intro j
            rw [List.mem_cons, hmemF j]
        · have hge : st.2.length + 1 ≤ k :=
            Nat.succ_le_of_lt (lt_of_le_of_ne (Nat.le_of_not_lt hklen) (Ne.symm hkeq))
          rw [List.getElem?_eq_none (by simpa using hge)] at hk
          cases hk
    · -- visited set grows
      intro x hx
      exact Finset.mem_union_left _ (Finset.mem_insert_of_mem hx)
    · -- i is visited afterwards
      exact Finset.mem_union_left _ (Finset.mem_insert_self i _)

lemma outerFold_inv (M : ℕ → ℕ → EReal) (t : EReal) (n : ℕ) :
    ∀ (L : List ℕ) (st : Finset ℕ × List (List ℕ)), (∀ i ∈ L, i < n) → GInv M t n st →
      GInv M t n (L.foldl (outerStep M t n) st) ∧
      st.1 ⊆ (L.foldl (outerStep M t n) st).1 ∧
      ∀ i ∈ L, i ∈ (L.foldl (outerStep M t n) st).1 := by
  intro L
  induction L with
  | nil =>
      intro st _ h
      exact ⟨h, subset_rfl, by simp⟩
  | cons a L ih =>
      intro st hltL hInv
      rw [List.foldl_cons]
      obtain ⟨h1, h2, h3⟩ :=
        outerStep_preserves M t n st a (hltL a (List.mem_cons_self a L)) hInv
      obtain ⟨g1, g2, g3⟩ :=
        ih (outerStep M t n st a) (fun i hi => hltL i (List.mem_cons_of_mem a hi)) h1
      refine ⟨g1, subset_trans h2 g2, ?_⟩
      intro i hi
      rcases List.mem_cons.mp hi with rfl | hi2
      · exact g2 h3
      · exact g3 i hi2

lemma find_similar_lines_ok_spec (lines : List Segment) (threshold : ℝ) (method : String)
    (M : ℕ → ℕ → EReal) (gs : List (List ℕ))
    (hM : calculate_line_distances lines method = .ok M)
    (h : find_similar_lines lines threshold method = .ok gs) :
    (∀ g ∈ gs, g.Nodup) ∧
    (∀ k g, gs[k]? = some g → ∃ i, g.head? = some i ∧ i < lines.length ∧
      i ∉ unionAll (gs.take k) ∧
      ∀ j, j ∈ g ↔ (j = i ∨ (j < lines.length ∧ j ∉ unionAll (gs.take k) ∧ j ≠ i ∧
        M i j ≤ (threshold : EReal)))) ∧
    (∀ x ∈ unionAll gs, x < lines.length) ∧
    (∀ x, x < lines.length → x ∈ unionAll gs) := by
  unfold find_similar_lines at h
  rw [hM, Except_ok_bind] at h
  have hinit : GInv M ↑threshold lines.length (∅, []) := by
    refine ⟨by simp [unionAll], by simp, by simp, ?_⟩
    intro k g hk
    simp at hk
  obtain ⟨⟨hv, hlt, hnd, hchar⟩, _, hall⟩ :=
    outerFold_inv M ↑threshold lines.length (List.range lines.length) (∅, [])
      (fun i hi => List.mem_range.mp hi) hinit
  cases h
  refine ⟨hnd, hchar, ?_, ?_⟩
  · intro x hx
    exact hlt x (hv ▸ hx)
  · intro x hx
    exact hv ▸ hall x (List.mem_range.mpr hx)

/-- Claim C1: for every segment list, threshold and method, whenever
find_similar_lines returns groups, the groups are nonempty, pairwise
disjoint, without duplicates, and cover exactly the indices 0..N-1; each
group is its founder head i plus exactly the indices j that are not in any
earlier group, differ from i, and satisfy matrix entry (i, j) at most the
threshold — membership is decided only against the founder i. -/
theorem find_similar_lines_groups_spec :
    ∀ (lines : List Segment) (threshold : ℝ) (method : String)
      (M : ℕ → ℕ → EReal) (gs : List (List ℕ)),
      calculate_line_distances lines method = .ok M →
      find_similar_lines lines threshold method = .ok gs →
      (∀ g ∈ gs, g ≠ []) ∧
      (∀ (k l : ℕ) (g h : List ℕ), k < l → gs[k]? = some g → gs[l]? = some h →
        ∀ x ∈ g, x ∉ h) ∧
      (∀ x, (∃ g ∈ gs, x ∈ g) ↔ x < lines.length) ∧
      (∀ g ∈ gs, g.Nodup) ∧
      (∀ k g, gs[k]? = some g → ∃ i, g.head? = some i ∧
        ∀ j, j ∈ g ↔ (j = i ∨ (j < lines.length ∧ j ∉ unionAll (gs.take k) ∧ j ≠ i ∧
          M i j ≤ (threshold : EReal)))) ∧
      (gs = [] ↔ lines = []) := by
  intro lines threshold method M gs hM h
  obtain ⟨hnd, hchar, hbound, hfull⟩ :=
    find_similar_lines_ok_spec lines threshold method M gs hM h
  have hmem_take : ∀ k l g x, k < l → gs[k]? = some g → x ∈ g →
      x ∈ unionAll (gs.take l) := by
    intro k l g x hkl hk hx
    refine (mem_unionAll x (gs.take l)).mpr ⟨g, ?_, hx⟩
    refine List.getElem?_mem (n := k) ?_
    rw [List.getElem?_take, if_pos hkl]
    exact hk
  refine ⟨?_, ?_, ?_, hnd, ?_, ?_⟩
  · -- groups nonempty
    intro g hg
    obtain ⟨k, hk⟩ := List.mem_iff_getElem?.mp hg
    obtain ⟨i, hhead, _⟩ := hchar k g hk
    intro hnil
    rw [hnil] at hhead
    cases hhead
  · -- pairwise disjoint
    intro k l g h hkl hk hl x hxg hxh
    obtain ⟨il, hheadl, hil, hnotinl, hiffl⟩ := hchar l h hl
    have hxtake := hmem_take k l g x hkl hk hxg
    rcases (hiffl x).mp hxh with rfl | ⟨_, hxnot, _, _⟩
    · exact hnotinl hxtake
    · exact hxnot hxtake
  · -- union is exactly the index range
    intro x
    constructor
    · rintro ⟨g, hg, hx⟩
      exact hbound x ((mem_unionAll x gs).mpr ⟨g, hg, hx⟩)
    · intro hx
      exact (mem_unionAll x gs).mp (hfull x hx)
  · -- founder characterization
    intro k g hk
    obtain ⟨i, hhead, _, _, hiff⟩ := hchar k g hk
    exact ⟨i, hhead, hiff⟩
  · -- empty output exactly on empty input
    constructor
    · intro hgs
      by_contra hne
      have h0 := hfull 0 (List.length_pos.mpr hne)
      rw [hgs] at h0
      simp [unionAll] at h0
    · intro hlines
      by_contra hne
      obtain ⟨g, hg⟩ := List.exists_mem_of_ne_nil gs hne
      obtain ⟨k, hk⟩ := List.mem_iff_getElem?.mp hg
      obtain ⟨i, _, hilen, _⟩ := hchar k g hk
      rw [hlines] at hilen
      simp at hilen

/-- Witness for claim C1 at concrete input: the empty segment list, where
both hypotheses hold by evaluation. -/
theorem find_similar_lines_groups_spec_witness :
    ([] : List (List ℕ)) = [] ↔ ([] : List Segment) = [] :=
  (find_similar_lines_groups_spec [] 10 "combined" (fun _ _ => 0) [] rfl rfl).2.2.2.2.2

lemma remove_similar_lines_eq_map (lines : List Segment) (threshold : ℝ) (method : String)
    (keep_longest : Bool) (gs : List (List ℕ))
    (h : find_similar_lines lines threshold method = .ok gs) :
    remove_similar_lines lines threshold method keep_longest =
      .ok (gs.map (fun group =>
        if keep_longest then
          pyMax line_length (group.map (fun i => lines.getD i (0, 0, 0, 0)))
        else
          lines.getD (group.getD 0 0) (0, 0, 0, 0))) := by
  unfold remove_similar_lines
  rw [h, Except_ok_bind]

/-- Claim C2: remove_similar_lines emits exactly one representative per
group of find_similar_lines, in group order, so the output length equals the
number of groups; with keep_longest the representative is the stable
(first-encountered) maximum of the group members under Euclidean length,
otherwise the founder; every emitted segment is one of the input segments. -/
theorem remove_similar_lines_spec :
    ∀ (lines : List Segment) (threshold : ℝ) (method : String) (keep_longest : Bool)
      (gs : List (List ℕ)) (res : List Segment),
      find_similar_lines lines threshold method = .ok gs →
      remove_similar_lines lines threshold method keep_longest = .ok res →
      res.length = gs.length ∧
      (∀ rep ∈ res, rep ∈ lines) ∧
      (∀ (k : ℕ) (g : List ℕ), gs[k]? = some g →
        ∃ rep, res[k]? = some rep ∧
          (keep_longest = false → ∃ i, g.head? = some i ∧ rep = lines.getD i (0, 0, 0, 0)) ∧
          (keep_longest = true → ∃ l1 l2,
            g.map (fun i => lines.getD i (0, 0, 0, 0)) = l1 ++ rep :: l2 ∧
            (∀ y ∈ l1, line_length y < line_length rep) ∧
            (∀ y ∈ l2, line_length y ≤ line_length rep))) := by
  intro lines threshold method keep_longest gs res hfind hrem
  -- the matrix exists because find_similar_lines succeeded
  have hMex : ∃ M, calculate_line_distances lines method = .ok M := by
    unfold find_similar_lines at hfind
    cases hcalc : calculate_line_distances lines method with
    | error e => rw [hcalc, Except_error_bind] at hfind; cases hfind
    | ok M => exact ⟨M, rfl⟩
  obtain ⟨M, hM⟩ := hMex
  obtain ⟨-, hchar, hbound, -⟩ :=
    find_similar_lines_ok_spec lines threshold method M gs hM hfind
  rw [remove_similar_lines_eq_map lines threshold method keep_longest gs hfind] at hrem
  cases hrem
  have hmem_lines : ∀ (g : List ℕ), g ∈ gs → ∀ j ∈ g, lines.getD j (0, 0, 0, 0) ∈ lines := by
    intro g hg j hj
    have hjn : j < lines.length :=
      hbound j ((mem_unionAll j gs).mpr ⟨g, hg, hj⟩)
    rw [List.getD_eq_getElem lines (0, 0, 0, 0) hjn]
    exact List.getElem_mem hjn
  refine ⟨by simp, ?_, ?_⟩
  · -- every representative is an input segment
    intro rep hrep
    obtain ⟨g, hg, hrepg⟩ := List.mem_map.mp hrep
    obtain ⟨k, hk⟩ := List.mem_iff_getElem?.mp hg
    obtain ⟨i, hhead, -, -, -⟩ := hchar k g hk
    cases g with
    | nil => cases hhead
    | cons a tl =>
        by_cases hkl : keep_longest = true
        · rw [if_pos hkl] at hrepg
          obtain ⟨l1, l2, hdec, -, -⟩ :=
            pyMax_spec line_length (tl.map (fun i => lines.getD i (0, 0, 0, 0)))
              (lines.getD a (0, 0, 0, 0))
          have hmem : pyMax line_length
              (lines.getD a (0, 0, 0, 0) :: tl.map (fun i => lines.getD i (0, 0, 0, 0))) ∈
              l1 ++ pyMax line_length
                (lines.getD a (0, 0, 0, 0) :: tl.map (fun i => lines.getD i (0, 0, 0, 0))) :: l2 :=
            List.mem_append_right l1 (List.mem_cons_self _ _)
          rw [← hdec] at hmem
          have hrep_mem : rep ∈ (a :: tl).map (fun i => lines.getD i (0, 0, 0, 0)) := by
            rw [← hrepg]
            exact hmem
          obtain ⟨j, hjg, hjrep⟩ := List.mem_map.mp hrep_mem
          rw [← hjrep]
          exact hmem_lines _ hg j hjg
        · rw [if_neg hkl] at hrepg
          rw [← hrepg]
          exact hmem_lines _ hg a (List.mem_cons_self a tl)
  · -- per-group representative characterization
    intro k g hk
    obtain ⟨i, hhead, -, -, -⟩ := hchar k g hk
    refine ⟨(fun group =>
        if keep_longest then
          pyMax line_length (group.map (fun i => lines.getD i (0, 0, 0, 0)))
        else
          lines.getD (group.getD 0 0) (0, 0, 0, 0)) g, ?_, ?_, ?_⟩
    · rw [List.getElem?_map, hk]
      rfl
    · intro hklf
      dsimp only
      rw [if_neg (by rw [hklf]; simp)]
      cases g with
      | nil => cases hhead
      | cons a tl =>
          have hai : a = i := by simpa using hhead
          refine ⟨i, hhead, ?_⟩
          rw [← hai]
          rfl
    · intro hklt
      dsimp only
      rw [if_pos hklt]
      cases g with
      | nil => cases hhead
      | cons a tl =>
          obtain ⟨l1, l2, hdec, hl1, hl2⟩ :=
            pyMax_spec line_length (tl.map (fun i => lines.getD i (0, 0, 0, 0)))
              (lines.getD a (0, 0, 0, 0))
          refine ⟨l1, l2, ?_, hl1, hl2⟩
          simpa using hdec

/-- Witness for claim C2 at concrete input: the empty segment list. -/
theorem remove_similar_lines_spec_witness :
    ([] : List Segment).length = ([] : List (List ℕ)).length :=
  (remove_similar_lines_spec [] 10 "combined" true [] [] rfl rfl).1

/-- Claim C3: whenever calculate_line_distances returns a matrix, that matrix
is symmetric with zero diagonal and nonnegative entries, and all entries are
finite for every method other than parallel. -/
theorem calculate_line_distances_spec :
    ∀ (lines : List Segment) (method : String) (M : ℕ → ℕ → EReal),
      calculate_line_distances lines method = .ok M →
      (∀ i j, M i j = M j i) ∧ (∀ i, M i i = 0) ∧ (∀ i j, (0 : EReal) ≤ M i j) ∧
      (method ≠ "parallel" → ∀ i j, M i j ≠ ⊤) :=
  fun lines method M h => calculate_line_distances_matInv lines method M h

/-- Witness for claim C3 at concrete input: the empty list, whose matrix is
identically zero. -/
theorem calculate_line_distances_spec_witness :
    calculate_line_distances [] "combined" = .ok (fun _ _ => (0 : EReal)) ∧
    (fun _ _ => (0 : EReal)) 0 1 = (fun _ _ => (0 : EReal)) 1 0 ∧
    (fun _ _ => (0 : EReal)) 0 0 = 0 ∧
    (0 : EReal) ≤ (fun _ _ => (0 : EReal)) 0 1 :=
  ⟨rfl, (calculate_line_distances_spec [] "combined" _ rfl).1 0 1,
    (calculate_line_distances_spec [] "combined" _ rfl).2.1 0,
    (calculate_line_distances_spec [] "combined" _ rfl).2.2.1 0 1⟩

lemma canonical_0111 : line_to_canonical ((0 : ℝ), (1 : ℝ), (1 : ℝ), (1 : ℝ)) =
    ((0 : ℝ), (-1 : ℝ), (1 : ℝ)) := by
  simp only [line_to_canonical]
  norm_num [Real.sqrt_one]

lemma canonical_1101 : line_to_canonical ((1 : ℝ), (1 : ℝ), (0 : ℝ), (1 : ℝ)) =
    ((0 : ℝ), (1 : ℝ), (-1 : ℝ)) := by
  simp only [line_to_canonical]
  norm_num [Real.sqrt_one]

lemma canonical_0313 : line_to_canonical ((0 : ℝ), (3 : ℝ), (1 : ℝ), (3 : ℝ)) =
    ((0 : ℝ), (-1 : ℝ), (3 : ℝ)) := by
  simp only [line_to_canonical]
  norm_num [Real.sqrt_one]

lemma canonical_0010 : line_to_canonical ((0 : ℝ), (0 : ℝ), (1 : ℝ), (0 : ℝ)) =
    ((0 : ℝ), (-1 : ℝ), (0 : ℝ)) := by
  simp only [line_to_canonical]
  norm_num [Real.sqrt_one]

lemma canonical_0001 : line_to_canonical ((0 : ℝ), (0 : ℝ), (0 : ℝ), (1 : ℝ)) =
    ((1 : ℝ), (0 : ℝ), (0 : ℝ)) := by
  simp only [line_to_canonical]
  norm_num [Real.sqrt_one]

/-- Counterexample for claim C4: under method parallel, reversing the
endpoint order of the first segment changes the distance between the lines
y = 1 and y = 3 from 2 to 4, because the canonical C coefficient flips sign
while the code always computes the absolute difference C2 - C1. -/
theorem lines_distance_direction_cex :
    lines_distance (line_to_canonical (0, 1, 1, 1)) (line_to_canonical (0, 3, 1, 3))
        (some (0, 1, 1, 1)) (some (0, 3, 1, 3)) "parallel" ≠
      lines_distance (line_to_canonical (1, 1, 0, 1)) (line_to_canonical (0, 3, 1, 3))
        (some (1, 1, 0, 1)) (some (0, 3, 1, 3)) "parallel" := by
  rw [canonical_0111, canonical_1101, canonical_0313,
    lines_distance_parallel_eq, lines_distance_parallel_eq]
  rw [if_neg (by norm_num), if_neg (by norm_num)]
  simp only [ne_eq, Except.ok.injEq]
  intro h
  rw [show |(3 : ℝ) - 1| = 2 by norm_num, show |(3 : ℝ) - (-1)| = 4 by norm_num] at h
  have := EReal.coe_eq_coe_iff.mp h
  norm_num at this

lemma neg_norm_eq (A B : ℝ) : (-A) ^ 2 + (-B) ^ 2 = A ^ 2 + B ^ 2 := by ring

lemma ptl_val_neg (p : ℝ × ℝ) (A B C : ℝ) :
    ptl_val p (-A, -B, -C) = ptl_val p (A, B, C) := by
  unfold ptl_val
  dsimp only
  rw [show -A * p.1 + -B * p.2 + -C = -(A * p.1 + B * p.2 + C) by ring, abs_neg,
    neg_norm_eq]

lemma ptl_val_neg' (p : ℝ × ℝ) (c : CanonicalLine) :
    ptl_val p (-c.1, -c.2.1, -c.2.2) = ptl_val p c :=
  ptl_val_neg p c.1 c.2.1 c.2.2

lemma line_angle_neg' (c : CanonicalLine) :
    line_angle (-c.1, -c.2.1, -c.2.2) = line_angle c :=
  line_angle_neg c.1 c.2.1 c.2.2

lemma line_center_revSeg (s : Segment) : line_center (revSeg s) = line_center s := by
  obtain ⟨x1, y1, x2, y2⟩ := s
  simp only [line_center, revSeg]
  refine Prod.ext ?_ ?_ <;> dsimp only <;> ring

lemma max_tail_swap (x a b : ℝ) : max (max x a) b = max (max x b) a := by
  rw [max_assoc, max_comm a b, ← max_assoc]

/-- Claim C4 (amended): for the methods angle, center, combined and
hausdorff, reversing the endpoint order of either non-degenerate segment,
both in the canonical form and in the raw points, leaves lines_distance
unchanged; method parallel is excluded because its result can change under
reversal. -/
theorem lines_distance_direction_invariance :
    ∀ (s1 s2 : Segment) (method : String),
      method ∈ ["angle", "center", "combined", "hausdorff"] →
      (s1.1, s1.2.1) ≠ (s1.2.2.1, s1.2.2.2) →
      (s2.1, s2.2.1) ≠ (s2.2.2.1, s2.2.2.2) →
      (lines_distance (line_to_canonical (revSeg s1)) (line_to_canonical s2)
          (some (revSeg s1)) (some s2) method =
        lines_distance (line_to_canonical s1) (line_to_canonical s2)
          (some s1) (some s2) method) ∧
      (lines_distance (line_to_canonical s1) (line_to_canonical (revSeg s2))
          (some s1) (some (revSeg s2)) method =
        lines_distance (line_to_canonical s1) (line_to_canonical s2)
          (some s1) (some s2) method) := by
  intro s1 s2 method hm hnd1 hnd2
  have hm4 : method = "angle" ∨ method = "center" ∨ method = "combined" ∨
      method = "hausdorff" := by simpa using hm
  rcases hm4 with rfl | rfl | rfl | rfl
  · constructor
    · rw [lines_distance_angle_eq, lines_distance_angle_eq, line_to_canonical_revSeg,
        line_angle_neg']
    · rw [lines_distance_angle_eq, lines_distance_angle_eq, line_to_canonical_revSeg,
        line_angle_neg']
  · constructor
    · rw [lines_distance_center_eq, lines_distance_center_eq, line_center_revSeg]
    · rw [lines_distance_center_eq, lines_distance_center_eq, line_center_revSeg]
  · constructor
    · rw [lines_distance_combined_closed, lines_distance_combined_closed,
        line_to_canonical_revSeg, line_center_revSeg]
      dsimp only
      rw [neg_norm_eq, line_angle_neg', ptl_val_neg']
    · rw [lines_distance_combined_closed, lines_distance_combined_closed,
        line_to_canonical_revSeg, line_center_revSeg]
      dsimp only
      rw [neg_norm_eq, line_angle_neg', ptl_val_neg']
  · constructor
    · rw [lines_distance_hausdorff_closed, lines_distance_hausdorff_closed,
        line_to_canonical_revSeg]
      dsimp only [revSeg]
      rw [neg_norm_eq, ptl_val_neg', ptl_val_neg',
        max_tail_swap 0 (ptl_val (s1.2.2.1, s1.2.2.2) (line_to_canonical s2))
          (ptl_val (s1.1, s1.2.1) (line_to_canonical s2))]
    · rw [lines_distance_hausdorff_closed, lines_distance_hausdorff_closed,
        line_to_canonical_revSeg]
      dsimp only [revSeg]
      rw [neg_norm_eq, ptl_val_neg', ptl_val_neg',
        max_tail_swap (max (max 0 (ptl_val (s1.1, s1.2.1) (line_to_canonical s2)))
          (ptl_val (s1.2.2.1, s1.2.2.2) (line_to_canonical s2)))]

/-- Witness for claim C4 (amended) at concrete input: reversing the segment
(0,0)-(1,0) does not change its angle distance to (0,1)-(1,1). -/
theorem lines_distance_direction_invariance_witness :
    lines_distance (line_to_canonical (revSeg (0, 0, 1, 0))) (line_to_canonical (0, 1, 1, 1))
        (some (revSeg (0, 0, 1, 0))) (some (0, 1, 1, 1)) "angle" =
      lines_distance (line_to_canonical (0, 0, 1, 0)) (line_to_canonical (0, 1, 1, 1))
        (some (0, 0, 1, 0)) (some (0, 1, 1, 1)) "angle" :=
  (lines_distance_direction_invariance (0, 0, 1, 0) (0, 1, 1, 1) "angle"
    (by decide) (by norm_num [Prod.ext_iff]) (by norm_num [Prod.ext_iff])).1

/-- Claim C5: under method parallel, lines_distance returns plus infinity
exactly when the absolute normal dot product is below 0.95, and the absolute
C offset difference otherwise; perpendicular segments give infinity and the
two unit-offset horizontal segments give exactly 1. -/
theorem lines_distance_parallel_spec :
    (∀ (a1 b1 c1 a2 b2 c2 : ℝ) (p1 p2 : Option Segment),
      (lines_distance (a1, b1, c1) (a2, b2, c2) p1 p2 "parallel" = .ok ⊤ ↔
        |a1 * a2 + b1 * b2| < 0.95) ∧
      (¬ |a1 * a2 + b1 * b2| < 0.95 →
        lines_distance (a1, b1, c1) (a2, b2, c2) p1 p2 "parallel" = .ok ↑|c2 - c1|)) ∧
    lines_distance (line_to_canonical (0, 0, 1, 0)) (line_to_canonical (0, 0, 0, 1))
      none none "parallel" = .ok ⊤ ∧
    lines_distance (line_to_canonical (0, 0, 1, 0)) (line_to_canonical (0, 1, 1, 1))
      none none "parallel" = .ok ((1 : ℝ) : EReal) := by
  refine ⟨?_, ?_, ?_⟩
  · intro a1 b1 c1 a2 b2 c2 p1 p2
    rw [lines_distance_parallel_eq]
    dsimp only
    refine ⟨⟨?_, ?_⟩, ?_⟩
    · intro hok
      by_contra hlt
      rw [if_neg hlt] at hok
      exact EReal.coe_ne_top _ (Except.ok.inj hok)
    · intro hlt
      rw [if_pos hlt]
    · intro hnl
      rw [if_neg hnl]
  · rw [canonical_0010, canonical_0001, lines_distance_parallel_eq]
    rw [if_pos (by norm_num)]
  · rw [canonical_0010, canonical_0111, lines_distance_parallel_eq]
    rw [if_neg (by norm_num)]
    norm_num

/-- Witness for claim C5 at concrete canonical lines where the threshold
hypothesis of the finite branch holds. -/
theorem lines_distance_parallel_spec_witness :
    ¬ |(0 : ℝ) * 0 + (-1) * (-1)| < 0.95 ∧
    lines_distance ((0 : ℝ), (-1 : ℝ), (0 : ℝ)) ((0 : ℝ), (-1 : ℝ), (1 : ℝ))
      none none "parallel" = .ok ↑|(1 : ℝ) - 0| :=
  ⟨by norm_num,
    (lines_distance_parallel_spec.1 0 (-1) 0 0 (-1) 1 none none).2 (by norm_num)⟩

/-- Claim C6: the loop-based hausdorff computation, whose inner minimization
over the opposite points is redundant, is extensionally equal to the plain
maximum of the four endpoint-to-line perpendicular distances. -/
theorem lines_distance_hausdorff_refines :
    ∀ (c1 c2 : CanonicalLine) (s1 s2 : Segment),
      lines_distance c1 c2 (some s1) (some s2) "hausdorff" =
        hausdorff_max_of_four c1 c2 s1 s2 := by
  intro c1 c2 s1 s2
  rw [lines_distance_hausdorff_closed]
  unfold hausdorff_max_of_four
  rw [point_to_line_distance_eq, point_to_line_distance_eq, point_to_line_distance_eq,
    point_to_line_distance_eq]
  by_cases h2 : Real.sqrt (c2.1 ^ 2 + c2.2.1 ^ 2) = 0 <;>
    by_cases h1 : Real.sqrt (c1.1 ^ 2 + c1.2.1 ^ 2) = 0 <;>
    simp [h1, h2, Except_ok_bind, Except_error_bind]
  rw [max_eq_right (ptl_val_nonneg _ _), max_assoc]

/-- Counterexample for claim C7: method combined with both point arguments
present still raises, namely ZeroDivisionError, when a degenerate (0,0,0)
canonical line reaches the unguarded division in point_to_line_distance, so
the two claimed failure cases are not exhaustive. -/
theorem lines_distance_zero_division_cex :
    lines_distance (0, 0, 0) (0, 0, 0) (some (0, 0, 0, 0)) (some (0, 0, 0, 0)) "combined" =
      .error .zeroDivisionError := by
  rw [lines_distance_combined_closed]
  rw [if_pos (by norm_num [Real.sqrt_zero])]

/-- Claim C7 (amended): lines_distance fails with the unknown-method
ValueError naming the offending string outside the five methods; with the
needs-points ValueError naming the method when points are missing for
center, combined or hausdorff, eagerly and identically whichever point
argument is missing; parallel and angle always return; center with points
always returns; combined and hausdorff with points return exactly when
neither canonical line is degenerate, failing with ZeroDivisionError
otherwise. -/
theorem lines_distance_error_spec :
    ∀ (c1 c2 : CanonicalLine) (p1 p2 : Option Segment) (method : String),
      (method ∉ ["parallel", "angle", "center", "combined", "hausdorff"] →
        lines_distance c1 c2 p1 p2 method =
          .error (.valueError ("Неизвестный метод: " ++ method))) ∧
      (p1 = none ∨ p2 = none →
        lines_distance c1 c2 p1 p2 "center" =
          .error (.valueError "Для метода center нужны исходные точки линий") ∧
        lines_distance c1 c2 p1 p2 "combined" =
          .error (.valueError "Для метода combined нужны исходные точки линий") ∧
        lines_distance c1 c2 p1 p2 "hausdorff" =
          .error (.valueError "Для метода hausdorff нужны исходные точки линий")) ∧
      ((method = "parallel" ∨ method = "angle") →
        ∃ v, lines_distance c1 c2 p1 p2 method = .ok v) ∧
      (∀ s1 s2 : Segment, ∃ v,
        lines_distance c1 c2 (some s1) (some s2) "center" = .ok v) ∧
      (∀ s1 s2 : Segment, (method = "combined" ∨ method = "hausdorff") →
        ((∃ v, lines_distance c1 c2 (some s1) (some s2) method = .ok v) ↔
          ¬ degenerateLine c1 ∧ ¬ degenerateLine c2)) := by
  intro c1 c2 p1 p2 method
  refine ⟨?_, ?_, ?_, ?_, ?_⟩
  · intro hmem
    simp only [List.mem_cons, List.not_mem_nil, or_false, not_or] at hmem
    obtain ⟨h1, h2, h3, h4, h5⟩ := hmem
    exact lines_distance_unknown c1 c2 p1 p2 method h1 h2 h3 h4 h5
  · intro hp
    exact ⟨lines_distance_center_missing c1 c2 p1 p2 hp,
      lines_distance_combined_missing c1 c2 p1 p2 hp,
      lines_distance_hausdorff_missing c1 c2 p1 p2 hp⟩
  · rintro (rfl | rfl)
    · rw [lines_distance_parallel_eq]
      split_ifs
      · exact ⟨_, rfl⟩
      · exact ⟨_, rfl⟩
    · rw [lines_distance_angle_eq]
      exact ⟨_, rfl⟩
  · intro s1 s2
    rw [lines_distance_center_eq]
    exact ⟨_, rfl⟩
  · rintro s1 s2 (rfl | rfl)
    · constructor
      · rintro ⟨v, hv⟩
        rw [lines_distance_combined_closed] at hv
        split_ifs at hv with ha hb
        cases hv
        exact ⟨fun hd => hb ((sqrt_norm_eq_zero_iff c1).mpr hd),
          fun hd => ha ((sqrt_norm_eq_zero_iff c2).mpr hd)⟩
      · rintro ⟨hd1, hd2⟩
        rw [lines_distance_combined_closed]
        rw [if_neg (fun h0 => hd2 ((sqrt_norm_eq_zero_iff c2).mp h0)),
          if_neg (fun h0 => hd1 ((sqrt_norm_eq_zero_iff c1).mp h0))]
        exact ⟨_, rfl⟩
    · constructor
      · rintro ⟨v, hv⟩
        rw [lines_distance_hausdorff_closed] at hv
        split_ifs at hv with ha hb
        cases hv
        exact ⟨fun hd => hb ((sqrt_norm_eq_zero_iff c1).mpr hd),
          fun hd => ha ((sqrt_norm_eq_zero_iff c2).mpr hd)⟩
      · rintro ⟨hd1, hd2⟩
        rw [lines_distance_hausdorff_closed]
        rw [if_neg (fun h0 => hd2 ((sqrt_norm_eq_zero_iff c2).mp h0)),
          if_neg (fun h0 => hd1 ((sqrt_norm_eq_zero_iff c1).mp h0))]
        exact ⟨_, rfl⟩

/-- Witness for claim C7 (amended): the unknown method bogus fails with the
ValueError naming it. -/
theorem lines_distance_error_spec_witness :
    lines_distance ((0 : ℝ), (0 : ℝ), (0 : ℝ)) ((0 : ℝ), (0 : ℝ), (0 : ℝ)) none none "bogus" =
      .error (.valueError ("Неизвестный метод: " ++ "bogus")) :=
  (lines_distance_error_spec (0, 0, 0) (0, 0, 0) none none "bogus").1 (by decide)

/-- Claim C8: line_to_canonical computes A = y2-y1, B = x1-x2,
C = x2*y1-x1*y2 and divides by the norm when it is positive, so distinct
endpoints give a unit normal, while a zero-length segment yields the
unnormalized degenerate triple (0,0,0) without error. -/
theorem line_to_canonical_spec :
    ∀ x1 y1 x2 y2 : ℝ,
      (0 < Real.sqrt ((y2 - y1) ^ 2 + (x1 - x2) ^ 2) →
        line_to_canonical (x1, y1, x2, y2) =
          ((y2 - y1) / Real.sqrt ((y2 - y1) ^ 2 + (x1 - x2) ^ 2),
           (x1 - x2) / Real.sqrt ((y2 - y1) ^ 2 + (x1 - x2) ^ 2),
           (x2 * y1 - x1 * y2) / Real.sqrt ((y2 - y1) ^ 2 + (x1 - x2) ^ 2))) ∧
      ((x1, y1) ≠ (x2, y2) →
        (line_to_canonical (x1, y1, x2, y2)).1 ^ 2 +
          (line_to_canonical (x1, y1, x2, y2)).2.1 ^ 2 = 1) ∧
      ((x1, y1) = (x2, y2) → line_to_canonical (x1, y1, x2, y2) = (0, 0, 0)) :=
  fun x1 y1 x2 y2 =>
    ⟨line_to_canonical_pos_case x1 y1 x2 y2, line_to_canonical_unit x1 y1 x2 y2,
      line_to_canonical_degenerate x1 y1 x2 y2⟩

/-- Witness for claim C8: the unit segment (0,0)-(1,0) has a unit normal. -/
theorem line_to_canonical_spec_witness :
    ((0 : ℝ), (0 : ℝ)) ≠ ((1 : ℝ), (0 : ℝ)) ∧
    (line_to_canonical (0, 0, 1, 0)).1 ^ 2 + (line_to_canonical (0, 0, 1, 0)).2.1 ^ 2 = 1 :=
  ⟨by norm_num [Prod.ext_iff],
    (line_to_canonical_spec 0 0 1 0).2.1 (by norm_num [Prod.ext_iff])⟩

/-- Claim C9: for a non-degenerate canonical line, line_angle lies in
[0, π), equals exactly π/2 when B = 0, and otherwise equals atan2(-A, B)
reduced modulo π. -/
theorem line_angle_spec :
    ∀ A B C : ℝ, ¬(A = 0 ∧ B = 0) →
      (0 ≤ line_angle (A, B, C) ∧ line_angle (A, B, C) < π) ∧
      (B = 0 → line_angle (A, B, C) = π / 2) ∧
      (B ≠ 0 → line_angle (A, B, C) = fmod (atan2 (-A) B) π) := by
  intro A B C _hAB
  refine ⟨line_angle_mem (A, B, C), ?_, ?_⟩
  · intro hB
    simp [line_angle, hB]
  · intro hB
    simp [line_angle, hB]

/-- Witness for claim C9: the horizontal canonical line (0, 1, 0). -/
theorem line_angle_spec_witness :
    ¬((0 : ℝ) = 0 ∧ (1 : ℝ) = 0) ∧
    (0 ≤ line_angle ((0 : ℝ), (1 : ℝ), (0 : ℝ)) ∧
      line_angle ((0 : ℝ), (1 : ℝ), (0 : ℝ)) < π) :=
  ⟨by norm_num, (line_angle_spec 0 1 0 (by norm_num)).1⟩

/-- Claim C10: point_to_line_distance returns the perpendicular distance
formula without dividing by zero for every non-degenerate line, and for the
degenerate (A,B) = (0,0) line the division by zero surfaces as
ZeroDivisionError, never as a silently returned finite value. -/
theorem point_to_line_distance_spec :
    ∀ x y A B C : ℝ,
      (¬(A = 0 ∧ B = 0) →
        Real.sqrt (A ^ 2 + B ^ 2) ≠ 0 ∧
        point_to_line_distance (x, y) (A, B, C) =
          .ok (|A * x + B * y + C| / Real.sqrt (A ^ 2 + B ^ 2))) ∧
      ((A = 0 ∧ B = 0) →
        point_to_line_distance (x, y) (A, B, C) = .error .zeroDivisionError) := by
  intro x y A B C
  constructor
  · intro h
    have hne : Real.sqrt (A ^ 2 + B ^ 2) ≠ 0 := by
      intro h0
      exact h ((sqrt_norm_eq_zero_iff (A, B, C)).mp h0)
    refine ⟨hne, ?_⟩
    unfold point_to_line_distance pyDiv
    dsimp only
    rw [if_neg hne]
  · rintro ⟨rfl, rfl⟩
    unfold point_to_line_distance pyDiv
    dsimp only
    rw [if_pos (by norm_num [Real.sqrt_zero])]

/-- Witness for claim C10: the line (0, 1, 0) is non-degenerate and the
distance from (2, 3) is computed without division by zero. -/
theorem point_to_line_distance_spec_witness :
    ¬((0 : ℝ) = 0 ∧ (1 : ℝ) = 0) ∧
    (Real.sqrt ((0 : ℝ) ^ 2 + 1 ^ 2) ≠ 0 ∧
      point_to_line_distance ((2 : ℝ), (3 : ℝ)) ((0 : ℝ), (1 : ℝ), (0 : ℝ)) =
        .ok (|(0 : ℝ) * 2 + 1 * 3 + 0| / Real.sqrt ((0 : ℝ) ^ 2 + 1 ^ 2))) :=
  ⟨by norm_num, (point_to_line_distance_spec 2 3 0 1 0).1 (by norm_num)⟩
